import Mathlib

/-!
Shallow embedding of the core of `src/main.py` (a news scraper / notifier bot).

Python strings are modelled as `List Char`; Python `datetime` values produced by
`strptime` with the formats `%d/%m/%Y` and `%m/%d/%Y` carry only a calendar date,
modelled by the `Date` structure.  CPython `strptime` matches these formats with
the regular expressions
  day:   `3[01]|[12]\d|0[1-9]|[1-9]`   (1 or 2 digits, value 1..31),
  month: `1[0-2]|0[1-9]|[1-9]`         (1 or 2 digits, value 1..12),
  year:  `\d\d\d\d`                    (exactly 4 digits),
anchored over the whole string, and then validates the day against the month
length (including leap years) when building the `datetime`.  The embedding
models the digit class as the ASCII digits.  I/O (the HTTP fetch, BeautifulSoup
extraction of headings, the Telegram send, the JSON file) is modelled by
explicit inputs and by fields of the state / run result: the fetch plus the
per-heading extraction of lines 73-81 is abstracted into a `Heading` input
value, the file contents live in the state, writes to the file and issued send
requests are returned in the run result, and a caught exception is recorded in
the `aborted` flag.
-/

/-- Python strings, modelled as lists of characters. -/
abbrev Str := List Char

/-- A calendar date as produced by a successful `strptime` call. -/
structure Date where
  year : Nat
  month : Nat
  day : Nat
deriving DecidableEq

/-- Order-preserving numeric encoding of a date (month is at most 12 and day at
most 31, so this is the lexicographic year/month/day order); used to model
comparison of the `datetime` objects returned by `parse_date`. -/
def Date.toNat (d : Date) : Nat := d.year * 10000 + d.month * 100 + d.day

/-- The ASCII digit characters, modelling the digit class of the CPython
`strptime` regular expressions. -/
def digitChars : Str := '0' :: '1' :: '2' :: '3' :: '4' :: '5' :: '6' :: '7' :: '8' :: '9' :: []

/-- Numeric value of a digit string, as computed by `int` on the matched field. -/
def strNat (s : Str) : Nat := s.foldl (fun n c => 10 * n + (c.toNat - 48)) 0

/-- Leap year rule used by `datetime` for validating February 29. -/
def isLeap (y : Nat) : Bool := (y % 4 = 0 && y % 100 ≠ 0) || y % 400 = 0

/-- Number of days of month `m` in year `y`, as used by `datetime`. -/
def daysInMonth (y m : Nat) : Nat :=
  if m = 2 then (if isLeap y then 29 else 28)
  else if m = 4 ∨ m = 6 ∨ m = 9 ∨ m = 11 then 30
  else 31

/-- Validity check performed by the `datetime` constructor (MINYEAR = 1,
MAXYEAR = 9999). -/
def validYMD (y m d : Nat) : Bool :=
  decide (1 ≤ y ∧ y ≤ 9999 ∧ 1 ≤ m ∧ m ≤ 12 ∧ 1 ≤ d ∧ d ≤ daysInMonth y m)

/-- The day field regular expression of `strptime`: one or two digits with
value 1..31. -/
def matchDay (s : Str) : Bool :=
  decide ((∀ ch ∈ s, ch ∈ digitChars) ∧ s ≠ [] ∧ s.length ≤ 2 ∧ 1 ≤ strNat s ∧ strNat s ≤ 31)

/-- The month field regular expression of `strptime`: one or two digits with
value 1..12. -/
def matchMonth (s : Str) : Bool :=
  decide ((∀ ch ∈ s, ch ∈ digitChars) ∧ s ≠ [] ∧ s.length ≤ 2 ∧ 1 ≤ strNat s ∧ strNat s ≤ 12)

/-- The year field regular expression of `strptime`: exactly four digits. -/
def matchYear (s : Str) : Bool :=
  decide ((∀ ch ∈ s, ch ∈ digitChars) ∧ s.length = 4)

/-- Splitting a string at the slash separators, as the anchored three-field
`strptime` regular expressions do. -/
def splitSlash : Str → List Str
  | [] => [[]]
  | ch :: rest =>
    if ch = '/' then [] :: splitSlash rest
    else
      match splitSlash rest with
      | [] => [[ch]]
      | p :: ps => (ch :: p) :: ps

/-- Full success condition of `strptime(clean, "%d/%m/%Y")` on the three
slash-separated fields `a/b/c`: the three field regular expressions match and
the `datetime` constructor accepts year `c`, month `b`, day `a`. -/
def dmyOk (a b c : Str) : Bool :=
  matchDay a && matchMonth b && matchYear c && validYMD (strNat c) (strNat b) (strNat a)

/-- Full success condition of `strptime(clean, "%m/%d/%Y")` on the fields
`a/b/c`: month `a`, day `b`, year `c`. -/
def mdyOk (a b c : Str) : Bool :=
  matchMonth a && matchDay b && matchYear c && validYMD (strNat c) (strNat a) (strNat b)

/-- Model of `datetime.strptime(s, "%d/%m/%Y")`, returning `none` where the
Python call raises `ValueError` (which `parse_date` catches). -/
def strptimeDMY (s : Str) : Option Date :=
  match splitSlash s with
  | [a, b, c] => if dmyOk a b c then some ⟨strNat c, strNat b, strNat a⟩ else none
  | _ => none

/-- Model of `datetime.strptime(s, "%m/%d/%Y")`. -/
def strptimeMDY (s : Str) : Option Date :=
  match splitSlash s with
  | [a, b, c] => if mdyOk a b c then some ⟨strNat c, strNat a, strNat b⟩ else none
  | _ => none

/-- The normalized sentinel string compared against on line 29 of the source. -/
def sentinel : Str := "datenotfound".toList

/-- Line 28 of the source: `date_str.replace(" ", "").lower()`. -/
def cleanDate (s : Str) : Str := (s.filter fun ch => decide (ch ≠ ' ')).map Char.toLower

/-- Model of `parse_date` (lines 27-38): cleanDate, return `None` for the
sentinel or the empty string, then try the two formats in order.  The function
is total: every failure path returns `none`. -/
def parse_date (s : Str) : Option Date :=
  let clean := cleanDate s
  if clean = sentinel ∨ clean = [] then none
  else
    match strptimeDMY clean with
    | some d => some d
    | none => strptimeMDY clean

/-- A scraped news record (the dicts built on line 83 of the source). -/
structure NewsItem where
  id : Str
  title : Str
  date : Str
  description : Str
deriving DecidableEq

/-- Line 82 of the source: `unique_id = f"{title}||{date}"`. -/
def mkId (t d : Str) : Str := t ++ ('|' :: '|' :: d)

/-- Sort key used on lines 52 and 87: the parsed date.  On the lists it is
applied to, `parse_date` always succeeds; the default value is never used. -/
def dateKey (p : NewsItem) : Nat :=
  match parse_date p.date with
  | some d => d.toNat
  | none => 0

/-- The comparison under which Python sorts with `key=parse_date` and
`reverse=True`: `p` may precede `q` when the key of `q` is at most the key of
`p`.  A stable sort under this relation is exactly the Python result. -/
def newsLE (p q : NewsItem) : Prop := dateKey q ≤ dateKey p

instance : DecidableRel newsLE := fun p q => Nat.decLe (dateKey q) (dateKey p)

/-- The partition-and-sort applied both by `save_seen_posts` (lines 50-53) and
by `fetch_news` to a fresh scrape (lines 85-88): items with a parseable date
first, stably sorted descending by parsed date, then the items without a
parseable date in their original order.  `List.insertionSort` is a stable sort,
matching the stability guarantee of Python `list.sort`. -/
def sortByDateDesc (l : List NewsItem) : List NewsItem :=
  List.insertionSort newsLE (l.filter fun p => (parse_date p.date).isSome)
    ++ (l.filter fun p => (parse_date p.date).isNone)

/-- Model of `save_seen_posts` (lines 49-55): the value of this function is the
sequence written to the JSON file.  It builds fresh lists (two comprehensions
and a concatenation); the argument list is left untouched. -/
def save_seen_posts (posts : List NewsItem) : List NewsItem := sortByDateDesc posts

/-- One `h3` heading as extracted on lines 73-81, with the surrounding-markup
lookups already resolved: `hasParent` records whether `find_parent` succeeded
(otherwise the heading is skipped), and `date` / `description` hold the
extracted text, already defaulted to the empty string when the sibling
paragraph or its strong child is missing. -/
structure Heading where
  title : Str
  hasParent : Bool
  date : Str
  description : Str
deriving DecidableEq

/-- Lines 72-83: build one news dict per heading that has a parent container,
in document order. -/
def buildAllNews (hs : List Heading) : List NewsItem :=
  hs.filterMap fun h =>
    if h.hasParent then
      some { id := mkId h.title h.date, title := h.title, date := h.date, description := h.description }
    else none

/-- Lines 72-88: the canonical list for one cycle, scraped items in
date-descending-then-undated order. -/
def canonicalNews (hs : List Heading) : List NewsItem := sortByDateDesc (buildAllNews hs)

/-- The mutable process state touched by `fetch_news`: the globals
`seen_posts`, `seen_ids` and `last_check_time`, plus the contents of the JSON
file.  The Python `set` of ids is modelled as a list queried by membership. -/
structure FetchState where
  seen_posts : List NewsItem
  seen_ids : List Str
  json_file : List NewsItem
  last_check_time : Option Nat
deriving DecidableEq

/-- Observable outcome of one `fetch_news` call: the final state, the list of
file writes performed (each entry is the sequence written), the send requests
issued to the Telegram bot in order, and whether an exception was caught by the
`except` clause on lines 120-121. -/
structure RunResult where
  state : FetchState
  writes : List (List NewsItem)
  sent : List NewsItem
  aborted : Bool
deriving DecidableEq

/-- Intermediate result of the steady-state loop of lines 105-113. -/
structure LoopResult where
  posts : List NewsItem
  ids : List Str
  sent : List NewsItem
  found : Bool
  ok : Bool
deriving DecidableEq

/-- The steady-state loop (lines 106-113).  For each item in order: if its id
is unseen, record the id, append the item, and issue the send; a send that
fails raises, which aborts the whole loop (`ok = false`) with the item already
recorded.  `sendOk n` tells whether the send request for `n` succeeds. -/
def newsLoop (sendOk : NewsItem → Bool) (posts : List NewsItem) (ids : List Str)
    (sent : List NewsItem) (found : Bool) : List NewsItem → LoopResult
  | [] => ⟨posts, ids, sent, found, true⟩
  | n :: rest =>
    if n.id ∈ ids then newsLoop sendOk posts ids sent found rest
    else if sendOk n then newsLoop sendOk (posts ++ [n]) (n.id :: ids) (sent ++ [n]) true rest
    else ⟨posts ++ [n], n.id :: ids, sent ++ [n], true, false⟩

/-- Model of `fetch_news` (lines 60-121).  `fetched` is `none` when the HTTP
fetch raises (timeout, connection error, or `raise_for_status`), and otherwise
carries the extracted headings; `now` is the value of `datetime.now()`;
`send_last_only` selects the bootstrap path of lines 92-103. -/
def fetch_news (sendOk : NewsItem → Bool) (now : Nat) (fetched : Option (List Heading))
    (send_last_only : Bool) (s : FetchState) : RunResult :=
  match fetched with
  | none => ⟨s, [], [], true⟩
  | some headings =>
    if headings.isEmpty then ⟨s, [], [], false⟩
    else
      let all_news := canonicalNews headings
      let s1 : FetchState := { s with last_check_time := some now }
      if send_last_only then
        let seeded := s1.seen_posts.isEmpty
        let s2 : FetchState :=
          if seeded then
            { s1 with seen_posts := all_news, seen_ids := all_news.map (·.id),
                      json_file := save_seen_posts all_news }
          else s1
        let writes := if seeded then [save_seen_posts all_news] else []
        match all_news with
        | [] => ⟨s2, writes, [], false⟩
        | last :: _ => ⟨s2, writes, [last], !(sendOk last)⟩
      else
        let r := newsLoop sendOk s1.seen_posts s1.seen_ids [] false all_news
        let s2 : FetchState := { s1 with seen_posts := r.posts, seen_ids := r.ids }
        if r.ok then
          if r.found then
            ⟨{ s2 with json_file := save_seen_posts r.posts }, [save_seen_posts r.posts], r.sent, false⟩
          else ⟨s2, [], r.sent, false⟩
        else ⟨s2, [], r.sent, true⟩

/-- The items of the canonical list whose id is not yet in the given id set:
exactly the items the steady-state loop treats as candidates against the
pre-run state. -/
def newItemsOf (hs : List Heading) (ids : List Str) : List NewsItem :=
  (canonicalNews hs).filter fun n => decide (¬ n.id ∈ ids)

/-- Model of `lastnew_command` (lines 126-138): report the last element of the
in-memory `seen_posts` together with `last_check_time`, or nothing when the
store is empty. -/
def lastnew_command (s : FetchState) : Option (NewsItem × Option Nat) :=
  s.seen_posts.getLast?.map fun p => (p, s.last_check_time)

/-- An empty initial state (fresh deployment, no prior JSON file). -/
def emptyState : FetchState := ⟨[], [], [], none⟩

/-- A fixed sample heading with a parseable date, used by witnesses. -/
def hA : Heading := ⟨'t' :: [], true, "01/02/2024".toList, []⟩

instance : IsTotal NewsItem newsLE := ⟨fun a b => Nat.le_total (dateKey b) (dateKey a)⟩

instance : IsTrans NewsItem newsLE := ⟨fun _ _ _ h1 h2 => Nat.le_trans h2 h1⟩

/-- Basic facts about the digit characters: none is a space or a slash, and
lower-casing fixes them, so `cleanDate` leaves digit strings alone. -/
theorem digit_char_facts : ∀ ch ∈ digitChars, ch ≠ ' ' ∧ ch ≠ '/' ∧ Char.toLower ch = ch := by
  decide

/-- A whitespace character is one of the four ASCII whitespace characters. -/
theorem ws_char_cases (c : Char) (h : c.isWhitespace = true) :
    c = ' ' ∨ c = '\t' ∨ c = '\r' ∨ c = '\n' := by
  simp only [Char.isWhitespace, Bool.or_eq_true, decide_eq_true_eq] at h
  tauto

/-- `cleanDate` is the identity on strings without spaces whose characters are
fixed by lower-casing. -/
theorem cleanDate_eq_self (s : Str) (h : ∀ ch ∈ s, ch ≠ ' ' ∧ Char.toLower ch = ch) :
    cleanDate s = s := by
  induction s with
  | nil => rfl
  | cons c t ih =>
    have hc := h c (List.mem_cons_self c t)
    have ht := ih fun x hx => h x (List.mem_cons_of_mem c hx)
    have hdec : decide (c ≠ ' ') = true := decide_eq_true hc.1
    unfold cleanDate at ht ⊢
    rw [@List.filter_cons_of_pos _ (fun ch => decide (ch ≠ ' ')) c t hdec, List.map_cons, hc.2, ht]

/-- `splitSlash` returns the whole string when it holds no slash. -/
theorem splitSlash_no_slash (s : Str) (h : ∀ c ∈ s, c ≠ '/') : splitSlash s = [s] := by
  induction s with
  | nil => rfl
  | cons c t ih =>
    have hc : c ≠ '/' := h c (List.mem_cons_self c t)
    have ht := ih fun x hx => h x (List.mem_cons_of_mem c hx)
    simp [splitSlash, hc, ht]

/-- `splitSlash` peels off a slash-free prefix before a slash. -/
theorem splitSlash_append (a t : Str) (h : ∀ c ∈ a, c ≠ '/') :
    splitSlash (a ++ '/' :: t) = a :: splitSlash t := by
  induction a with
  | nil => simp [splitSlash]
  | cons c a2 ih =>
    have hc : c ≠ '/' := h c (List.mem_cons_self c a2)
    have ha := ih fun x hx => h x (List.mem_cons_of_mem c hx)
    simp [splitSlash, hc, ha]

/-- The id scheme of line 82 is injective on pairs as long as the title does
not contain the separator character. -/
theorem mkId_inj (t1 d1 t2 d2 : Str) (h1 : ('|' : Char) ∉ t1) (h2 : ('|' : Char) ∉ t2)
    (heq : mkId t1 d1 = mkId t2 d2) : t1 = t2 ∧ d1 = d2 := by
  induction t1 generalizing t2 with
  | nil =>
    cases t2 with
    | nil =>
      simp only [mkId, List.nil_append] at heq
      exact ⟨rfl, by injection heq with e1 heq; injection heq⟩
    | cons c t2' =>
      exfalso
      simp only [mkId, List.nil_append, List.cons_append] at heq
      injection heq with e1 _
      exact h2 (e1 ▸ List.mem_cons_self c t2')
  | cons c t1' ih =>
    cases t2 with
    | nil =>
      exfalso
      simp only [mkId, List.nil_append, List.cons_append] at heq
      injection heq with e1 _
      exact h1 (e1 ▸ List.mem_cons_self c t1')
    | cons c2 t2' =>
      simp only [mkId, List.cons_append] at heq
      injection heq with e1 heq
      have h1' : ('|' : Char) ∉ t1' := fun hx => h1 (List.mem_cons_of_mem c hx)
      have h2' : ('|' : Char) ∉ t2' := fun hx => h2 (List.mem_cons_of_mem c2 hx)
      obtain ⟨et, ed⟩ := ih t2' h1' h2' heq
      exact ⟨by rw [e1, et], ed⟩

/-- Claim C7 as stated is false on the code: the id is raw concatenation with
the separator, so a title containing the separator collides with a different
pair.  Two scraper-built items with different titles and different dates share
one id. -/
theorem claim_C7_counterexample :
    ∃ n1 ∈ buildAllNews [⟨"a||b".toList, true, 'c' :: [], []⟩],
      ∃ n2 ∈ buildAllNews [⟨'a' :: [], true, "b||c".toList, []⟩],
        n1.title ≠ n2.title ∧ n1.date ≠ n2.date ∧ n1.id = n2.id := by
  decide

/-- Claim C7, amended: identical pairs give the same id, and the id determines
the pair as long as neither title contains the separator character. -/
theorem claim_C7 (t1 d1 t2 d2 : Str) (h1 : ('|' : Char) ∉ t1) (h2 : ('|' : Char) ∉ t2) :
    (t1 = t2 ∧ d1 = d2 → mkId t1 d1 = mkId t2 d2) ∧
    (mkId t1 d1 = mkId t2 d2 → t1 = t2 ∧ d1 = d2) :=
  ⟨fun h => by rw [h.1, h.2], fun h => mkId_inj t1 d1 t2 d2 h1 h2 h⟩

/-- Witness for claim C7 at a concrete input. -/
theorem claim_C7_witness : ('x' :: ([] : Str)) = 'x' :: [] ∧ ('d' :: ([] : Str)) = 'd' :: [] :=
  (claim_C7 ('x' :: []) ('d' :: []) ('x' :: []) ('d' :: []) (by decide) (by decide)).2 rfl

/-- Claim C5: a transport failure (modelled by `fetched = none`, covering
timeout, connection error and `raise_for_status`) leaves the whole state
unchanged, performs no write and no send, and the exception is caught by the
handler of lines 120-121 rather than propagated (the model function returns
normally with the `aborted` flag set). -/
theorem claim_C5 (sendOk : NewsItem → Bool) (now : Nat) (b : Bool) (s : FetchState) :
    fetch_news sendOk now none b s = ⟨s, [], [], true⟩ := rfl

/-- Claim C3 as stated is false on the code: with a successful fetch but zero
headings, `fetch_news` returns on line 70, before `last_check_time` is
assigned on line 90, so the timestamp is not updated to the current time. -/
theorem claim_C3_counterexample :
    (fetch_news (fun _ => true) 99 (some []) false ⟨[], [], [], some 5⟩).state.last_check_time
      ≠ some 99 := by decide

/-- Claim C3, amended: on an empty scrape the cycle returns without error and
with no state change at all; in particular `last_check_time` keeps its old
value instead of being updated. -/
theorem claim_C3 (sendOk : NewsItem → Bool) (now : Nat) (b : Bool) (s : FetchState) :
    fetch_news sendOk now (some []) b s = ⟨s, [], [], false⟩ := rfl

/-- Claim C6: the sequence written by `save_seen_posts` splits into a dated
prefix, non-increasing under the parsed-date key, followed by the undated
items.  The ordering is recomputed by every call, since the output is a
function of the argument list alone. -/
theorem claim_C6 (posts : List NewsItem) :
    ∃ A B, save_seen_posts posts = A ++ B ∧
      (∀ p ∈ A, (parse_date p.date).isSome = true) ∧
      (∀ p ∈ B, parse_date p.date = none) ∧
      A.Pairwise newsLE := by
  refine ⟨List.insertionSort newsLE (posts.filter fun p => (parse_date p.date).isSome),
    posts.filter (fun p => (parse_date p.date).isNone), rfl, ?_, ?_, ?_⟩
  · intro p hp
    have hmem := (List.perm_insertionSort newsLE
      (posts.filter fun p => (parse_date p.date).isSome)).subset hp
    exact (List.mem_filter.1 hmem).2
  · intro p hp
    have := (List.mem_filter.1 hp).2
    exact Option.isNone_iff_eq_none.1 this
  · exact List.sorted_insertionSort newsLE (posts.filter fun p => (parse_date p.date).isSome)

/-- A string made of whitespace parses to `none`: once spaces are removed and
the rest lower-cased, the residue holds no slash, so neither format matches. -/
theorem parse_date_whitespace (s : Str) (hws : ∀ ch ∈ s, ch.isWhitespace = true) :
    parse_date s = none := by
  by_cases hif : cleanDate s = sentinel ∨ cleanDate s = []
  · simp [parse_date, hif]
  · have hnos : ∀ c ∈ cleanDate s, c ≠ '/' := by
      intro c hc
      obtain ⟨c0, hc0, rfl⟩ := List.mem_map.1 hc
      have h1 := List.mem_filter.1 hc0
      have h2 := hws c0 h1.1
      have h3 : c0 ≠ ' ' := of_decide_eq_true h1.2
      rcases ws_char_cases c0 h2 with h | h | h | h
      · exact absurd h h3
      · subst h; decide
      · subst h; decide
      · subst h; decide
    have hsp := splitSlash_no_slash (cleanDate s) hnos
    have hd : strptimeDMY (cleanDate s) = none := by
      unfold strptimeDMY
      rw [hsp]
    have hm : strptimeMDY (cleanDate s) = none := by
      unfold strptimeMDY
      rw [hsp]
    simp [parse_date, hif, hd, hm]

/-- Claim C9: `parse_date` is a total function of its input (it is defined as a
Lean `def` into `Option`, so no input can raise); it returns `none` on the
empty string, on whitespace-only strings, on the sentinel compared ignoring
case and spaces, and on any string matched by neither candidate format. -/
theorem claim_C9 :
    parse_date [] = none ∧
    parse_date ("  ".toList) = none ∧
    parse_date ("Date not found".toList) = none ∧
    (∀ s : Str, (∀ ch ∈ s, ch.isWhitespace = true) → parse_date s = none) ∧
    (∀ s : Str, strptimeDMY (cleanDate s) = none → strptimeMDY (cleanDate s) = none →
      parse_date s = none) := by
  refine ⟨by decide, by decide, by decide, parse_date_whitespace, ?_⟩
  intro s hd hm
  by_cases hif : cleanDate s = sentinel ∨ cleanDate s = []
  · simp [parse_date, hif]
  · simp [parse_date, hif, hd, hm]

/-- Witness for claim C9 at concrete inputs: a tab-and-space string and a
string matching neither format. -/
theorem claim_C9_witness :
    parse_date (' ' :: '\t' :: []) = none ∧ parse_date ("99/99/2024".toList) = none :=
  ⟨claim_C9.2.2.2.1 (' ' :: '\t' :: []) (by decide),
   claim_C9.2.2.2.2 ("99/99/2024".toList) (by decide) (by decide)⟩

/-- The day, month and year fields of a successful day-month-year match are
digit strings. -/
theorem dmyOk_digits (a b c : Str) (h : dmyOk a b c = true) :
    (∀ ch ∈ a, ch ∈ digitChars) ∧ (∀ ch ∈ b, ch ∈ digitChars) ∧ (∀ ch ∈ c, ch ∈ digitChars) := by
  simp only [dmyOk, Bool.and_eq_true, matchDay, matchMonth, matchYear, decide_eq_true_eq] at h
  exact ⟨h.1.1.1.1, h.1.1.2.1, h.1.2.1⟩

/-- The fields of a successful month-day-year match are digit strings. -/
theorem mdyOk_digits (a b c : Str) (h : mdyOk a b c = true) :
    (∀ ch ∈ a, ch ∈ digitChars) ∧ (∀ ch ∈ b, ch ∈ digitChars) ∧ (∀ ch ∈ c, ch ∈ digitChars) := by
  simp only [mdyOk, Bool.and_eq_true, matchDay, matchMonth, matchYear, decide_eq_true_eq] at h
  exact ⟨h.1.1.1.1, h.1.1.2.1, h.1.2.1⟩

/-- Evaluation of `parse_date` on a three-field slash string built from digit
fields: the day-month-year format is decided first, and the month-day-year
format is consulted only when the first fails. -/
theorem parse_date_slash (a b c : Str)
    (ha : ∀ ch ∈ a, ch ∈ digitChars) (hb : ∀ ch ∈ b, ch ∈ digitChars)
    (hc : ∀ ch ∈ c, ch ∈ digitChars) :
    parse_date (a ++ '/' :: (b ++ '/' :: c)) =
      if dmyOk a b c then some ⟨strNat c, strNat b, strNat a⟩
      else if mdyOk a b c then some ⟨strNat c, strNat a, strNat b⟩
      else none := by
  have hclean : cleanDate (a ++ '/' :: (b ++ '/' :: c)) = a ++ '/' :: (b ++ '/' :: c) := by
    apply cleanDate_eq_self
    intro ch hch
    rcases List.mem_append.1 hch with h | h
    · have := digit_char_facts ch (ha ch h)
      exact ⟨this.1, this.2.2⟩
    · rcases List.mem_cons.1 h with h | h
      · subst h; exact ⟨by decide, by decide⟩
      · rcases List.mem_append.1 h with h | h
        · have := digit_char_facts ch (hb ch h)
          exact ⟨this.1, this.2.2⟩
        · rcases List.mem_cons.1 h with h | h
          · subst h; exact ⟨by decide, by decide⟩
          · have := digit_char_facts ch (hc ch h)
            exact ⟨this.1, this.2.2⟩
  have hslash : ('/' : Char) ∈ a ++ '/' :: (b ++ '/' :: c) :=
    List.mem_append.2 (Or.inr (List.mem_cons_self _ _))
  have hne : a ++ '/' :: (b ++ '/' :: c) ≠ [] := by
    intro h
    rw [h] at hslash
    exact absurd hslash (List.not_mem_nil _)
  have hnsent : a ++ '/' :: (b ++ '/' :: c) ≠ sentinel := by
    intro h
    rw [h] at hslash
    revert hslash
    decide
  have hsp : splitSlash (a ++ '/' :: (b ++ '/' :: c)) = [a, b, c] := by
    rw [splitSlash_append a _ fun x hx => (digit_char_facts x (ha x hx)).2.1,
        splitSlash_append b _ fun x hx => (digit_char_facts x (hb x hx)).2.1,
        splitSlash_no_slash c fun x hx => (digit_char_facts x (hc x hx)).2.1]
  have hd : strptimeDMY (a ++ '/' :: (b ++ '/' :: c)) =
      (if dmyOk a b c then some ⟨strNat c, strNat b, strNat a⟩ else none) := by
    unfold strptimeDMY
    rw [hsp]
  have hm : strptimeMDY (a ++ '/' :: (b ++ '/' :: c)) =
      (if mdyOk a b c then some ⟨strNat c, strNat a, strNat b⟩ else none) := by
    unfold strptimeMDY
    rw [hsp]
  have hif : ¬(a ++ '/' :: (b ++ '/' :: c) = sentinel ∨ a ++ '/' :: (b ++ '/' :: c) = []) :=
    not_or.mpr ⟨hnsent, hne⟩
  simp only [parse_date, hclean]
  rw [if_neg hif, hd, hm]
  by_cases h : dmyOk a b c = true
  · rw [if_pos h, if_pos h]
  · rw [if_neg h, if_neg h]

/-- Claim C8: on a three-field slash date, the day-month-year reading wins
whenever it parses as a valid calendar date (so it also wins on ambiguous
strings where both readings are valid), and the month-day-year reading is
used exactly when the first reading fails and it itself is valid. -/
theorem claim_C8 (a b c s : Str) (hs : s = a ++ '/' :: (b ++ '/' :: c)) :
    (dmyOk a b c = true → parse_date s = some ⟨strNat c, strNat b, strNat a⟩) ∧
    (dmyOk a b c = false → mdyOk a b c = true →
      parse_date s = some ⟨strNat c, strNat a, strNat b⟩) := by
  subst hs
  constructor
  · intro h
    obtain ⟨ha, hb, hc⟩ := dmyOk_digits a b c h
    rw [parse_date_slash a b c ha hb hc, if_pos h]
  · intro h hmd
    obtain ⟨ha, hb, hc⟩ := mdyOk_digits a b c hmd
    rw [parse_date_slash a b c ha hb hc, if_neg (by simp [h]), if_pos hmd]

/-- Witness for claim C8: the ambiguous string 03/04/2024 resolves as day 3 of
April, and 05/25/2024 (valid only as month-day-year) resolves as May 25. -/
theorem claim_C8_witness :
    parse_date ("03/04/2024".toList) = some ⟨2024, 4, 3⟩ ∧
    parse_date ("05/25/2024".toList) = some ⟨2024, 5, 25⟩ := by
  constructor
  · have h := (claim_C8 ("03".toList) ("04".toList) ("2024".toList)
      ("03/04/2024".toList) (by decide)).1 (by decide)
    rw [h]
    decide
  · have h := (claim_C8 ("05".toList) ("25".toList) ("2024".toList)
      ("05/25/2024".toList) (by decide)).2 (by decide) (by decide)
    rw [h]
    decide

/-- When every send succeeds and the fresh ids are pairwise distinct, the loop
of lines 105-113 appends exactly the unseen items, in order, records their ids,
sends one message per appended item, and completes without exception. -/
theorem newsLoop_success (sendOk : NewsItem → Bool) :
    ∀ (l posts : List NewsItem) (ids : List Str) (sent : List NewsItem) (found : Bool),
      (∀ n ∈ l, ¬ n.id ∈ ids → sendOk n = true) →
      ((l.filter fun n => decide (¬ n.id ∈ ids)).map (·.id)).Nodup →
      newsLoop sendOk posts ids sent found l =
        ⟨posts ++ l.filter (fun n => decide (¬ n.id ∈ ids)),
         ((l.filter fun n => decide (¬ n.id ∈ ids)).map (·.id)).reverse ++ ids,
         sent ++ l.filter (fun n => decide (¬ n.id ∈ ids)),
         (found || !(l.filter fun n => decide (¬ n.id ∈ ids)).isEmpty),
         true⟩ := by
  intro l
  induction l with
  | nil =>
    intro posts ids sent found _ _
    simp [newsLoop]
  | cons n rest ih =>
    intro posts ids sent found hsend hnodup
    by_cases hmem : n.id ∈ ids
    · have hcond : ¬ ((fun m : NewsItem => decide (¬ m.id ∈ ids)) n = true) := by simp [hmem]
      rw [@List.filter_cons_of_neg _ (fun m => decide (¬ m.id ∈ ids)) n rest hcond] at hnodup ⊢
      have hsend' : ∀ m ∈ rest, ¬ m.id ∈ ids → sendOk m = true :=
        fun m hm => hsend m (List.mem_cons_of_mem n hm)
      simp only [newsLoop]
      rw [if_pos hmem, ih posts ids sent found hsend' hnodup]
    · have hcond : (fun m : NewsItem => decide (¬ m.id ∈ ids)) n = true := by simp [hmem]
      rw [@List.filter_cons_of_pos _ (fun m => decide (¬ m.id ∈ ids)) n rest hcond] at hnodup ⊢
      rw [List.map_cons, List.nodup_cons] at hnodup
      obtain ⟨hnotin, hnd0⟩ := hnodup
      have hfilter_eq : rest.filter (fun m => decide (¬ m.id ∈ n.id :: ids)) =
          rest.filter (fun m => decide (¬ m.id ∈ ids)) := by
        apply List.filter_congr
        intro x hx
        rw [decide_eq_decide]
        constructor
        · intro hn hmem2
          exact hn (List.mem_cons_of_mem _ hmem2)
        · intro hn hmem2
          rcases List.mem_cons.1 hmem2 with he | hm2
          · have hxf : x ∈ rest.filter (fun m => decide (¬ m.id ∈ ids)) :=
              List.mem_filter.2 ⟨hx, decide_eq_true hn⟩
            have hxm : x.id ∈ (rest.filter (fun m => decide (¬ m.id ∈ ids))).map (·.id) :=
              List.mem_map_of_mem _ hxf
            exact hnotin (he ▸ hxm)
          · exact hn hm2
      have hsend' : ∀ m ∈ rest, ¬ m.id ∈ n.id :: ids → sendOk m = true := by
        intro m hm hni
        exact hsend m (List.mem_cons_of_mem n hm) fun hmi => hni (List.mem_cons_of_mem _ hmi)
      have hnd' : ((rest.filter fun m => decide (¬ m.id ∈ n.id :: ids)).map (·.id)).Nodup := by
        rw [hfilter_eq]
        exact hnd0
      simp only [newsLoop]
      rw [if_neg hmem, if_pos (hsend n (List.mem_cons_self n rest) hmem),
        ih (posts ++ [n]) (n.id :: ids) (sent ++ [n]) true hsend' hnd', hfilter_eq]
      simp [List.append_assoc]

/-- Folding of `newItemsOf`, used to rewrite loop results back into the named
form. -/
theorem newItemsOf_def (hs : List Heading) (ids : List Str) :
    (canonicalNews hs).filter (fun n => decide (¬ n.id ∈ ids)) = newItemsOf hs ids := rfl

/-- Whatever the send outcomes, the loop of lines 105-113 only ever appends to
the store sequence, and it reports a find exactly when it appended. -/
theorem newsLoop_grow (sendOk : NewsItem → Bool) :
    ∀ (l posts : List NewsItem) (ids : List Str) (sent : List NewsItem) (found : Bool),
      ∃ L, (newsLoop sendOk posts ids sent found l).posts = posts ++ L ∧
        (newsLoop sendOk posts ids sent found l).found = (found || !L.isEmpty) := by
  intro l
  induction l with
  | nil =>
    intro posts ids sent found
    exact ⟨[], by simp [newsLoop]⟩
  | cons n rest ih =>
    intro posts ids sent found
    by_cases hmem : n.id ∈ ids
    · obtain ⟨L, h1, h2⟩ := ih posts ids sent found
      refine ⟨L, ?_, ?_⟩
      · simp only [newsLoop]
        rw [if_pos hmem, h1]
      · simp only [newsLoop]
        rw [if_pos hmem, h2]
    · by_cases hsendn : sendOk n = true
      · obtain ⟨L, h1, h2⟩ := ih (posts ++ [n]) (n.id :: ids) (sent ++ [n]) true
        refine ⟨n :: L, ?_, ?_⟩
        · simp only [newsLoop]
          rw [if_neg hmem, if_pos hsendn, h1]
          simp
        · simp only [newsLoop]
          rw [if_neg hmem, if_pos hsendn, h2]
          simp
      · refine ⟨[n], ?_, ?_⟩
        · simp only [newsLoop]
          rw [if_neg hmem, if_neg hsendn]
        · simp only [newsLoop]
          rw [if_neg hmem, if_neg hsendn]
          simp

/-- When the loop of lines 105-113 ends in a caught exception, some unseen item
had its send fail; that item was already appended and its id recorded before
the exception, and nothing is rolled back. -/
theorem newsLoop_abort (sendOk : NewsItem → Bool) :
    ∀ (l posts : List NewsItem) (ids : List Str) (sent : List NewsItem) (found : Bool),
      (newsLoop sendOk posts ids sent found l).ok = false →
      ∃ L n, sendOk n = false ∧
        (newsLoop sendOk posts ids sent found l).posts = posts ++ L ++ [n] ∧
        n.id ∈ (newsLoop sendOk posts ids sent found l).ids := by
  intro l
  induction l with
  | nil =>
    intro posts ids sent found hok
    exact absurd hok (by simp [newsLoop])
  | cons n rest ih =>
    intro posts ids sent found hok
    by_cases hmem : n.id ∈ ids
    · simp only [newsLoop] at hok ⊢
      rw [if_pos hmem] at hok ⊢
      exact ih posts ids sent found hok
    · by_cases hsendn : sendOk n = true
      · simp only [newsLoop] at hok ⊢
        rw [if_neg hmem, if_pos hsendn] at hok ⊢
        obtain ⟨L, m, hm1, hm2, hm3⟩ := ih (posts ++ [n]) (n.id :: ids) (sent ++ [n]) true hok
        refine ⟨n :: L, m, hm1, ?_, hm3⟩
        rw [hm2]
        simp
      · simp only [newsLoop] at hok ⊢
        rw [if_neg hmem, if_neg hsendn] at hok ⊢
        refine ⟨[], n, by simpa using hsendn, by simp, ?_⟩
        exact List.mem_cons_self _ _

/-- Claim C1 as stated is false on the code: it counts the scraped items whose
id is missing from the seen set, but when the scrape holds two items with the
same fresh id, only the first is notified (the second is skipped once the first
records the id).  Here the canonical list holds two copies of one item: two
items count as new, yet exactly one send request is issued even though no send
fails. -/
theorem claim_C1_counterexample :
    (newItemsOf [hA, hA] emptyState.seen_ids).length = 2 ∧
    (fetch_news (fun _ => true) 5 (some [hA, hA]) false emptyState).sent.length = 1 ∧
    (fetch_news (fun _ => true) 5 (some [hA, hA]) false emptyState).aborted = false := by
  decide

/-- Claim C1, amended: in a steady-state run with a successful fetch, with all
sends succeeding, and with the N fresh items (N at least 1) carrying pairwise
distinct ids, exactly one send request is issued per fresh item, in canonical
order; every fresh id enters the seen set, the items are appended to the store
sequence, and the store is persisted exactly once, after the whole batch. -/
theorem claim_C1 (sendOk : NewsItem → Bool) (now : Nat) (s : FetchState) (hs : List Heading)
    (N : Nat) (r : RunResult)
    (hr : r = fetch_news sendOk now (some hs) false s)
    (hsend : ∀ n ∈ newItemsOf hs s.seen_ids, sendOk n = true)
    (hnodup : ((newItemsOf hs s.seen_ids).map (·.id)).Nodup)
    (hN : (newItemsOf hs s.seen_ids).length = N) (hpos : 1 ≤ N) :
    r.sent = newItemsOf hs s.seen_ids ∧
    r.sent.length = N ∧
    r.state.seen_posts = s.seen_posts ++ newItemsOf hs s.seen_ids ∧
    (∀ n ∈ newItemsOf hs s.seen_ids, n.id ∈ r.state.seen_ids) ∧
    r.writes = [save_seen_posts (s.seen_posts ++ newItemsOf hs s.seen_ids)] ∧
    r.aborted = false := by
  subst hr
  have hne : newItemsOf hs s.seen_ids ≠ [] := by
    intro h
    rw [h] at hN
    simp at hN
    omega
  have hhs : ¬ (hs.isEmpty = true) := by
    intro h
    rw [List.isEmpty_iff] at h
    subst h
    exact hne rfl
  have hloop := newsLoop_success sendOk (canonicalNews hs) s.seen_posts s.seen_ids [] false
    (fun n hn hni => hsend n (List.mem_filter.2 ⟨hn, decide_eq_true hni⟩))
    (by rw [newItemsOf_def]; exact hnodup)
  rw [newItemsOf_def] at hloop
  have hrun : fetch_news sendOk now (some hs) false s =
      ⟨⟨s.seen_posts ++ newItemsOf hs s.seen_ids,
        ((newItemsOf hs s.seen_ids).map (·.id)).reverse ++ s.seen_ids,
        save_seen_posts (s.seen_posts ++ newItemsOf hs s.seen_ids), some now⟩,
       [save_seen_posts (s.seen_posts ++ newItemsOf hs s.seen_ids)],
       newItemsOf hs s.seen_ids, false⟩ := by
    simp only [fetch_news]
    rw [if_neg hhs, if_neg Bool.false_ne_true, hloop]
    simp [List.isEmpty_eq_false.mpr hne]
  rw [hrun]
  refine ⟨rfl, by simpa using hN, rfl, ?_, rfl, rfl⟩
  intro n hn
  exact List.mem_append_left _ (List.mem_reverse.2 (List.mem_map_of_mem _ hn))

/-- Witness for claim C1: one fresh item on an empty store yields exactly one
send request. -/
theorem claim_C1_witness :
    (fetch_news (fun _ => true) 5 (some [hA]) false emptyState).sent.length = 1 :=
  (claim_C1 (fun _ => true) 5 emptyState [hA] 1 _ rfl (by decide) (by decide) (by decide)
    (by decide)).2.1

/-- Claim C2: a bootstrap run with a successful fetch on an empty store seeds
the store with the whole canonical list, marks every scraped item seen,
persists the seeded store, and issues exactly one send request, for the first
canonical item; the run result is fully determined by the bootstrap path, so
none of the steady-state steps occur. -/
theorem claim_C2 (sendOk : NewsItem → Bool) (now : Nat) (s : FetchState) (hs : List Heading)
    (r : RunResult)
    (hr : r = fetch_news sendOk now (some hs) true s)
    (hempty : s.seen_posts = [])
    (hne : canonicalNews hs ≠ []) :
    r.state.seen_posts = canonicalNews hs ∧
    (∀ n ∈ canonicalNews hs, n.id ∈ r.state.seen_ids) ∧
    r.state.json_file = save_seen_posts (canonicalNews hs) ∧
    r.writes = [save_seen_posts (canonicalNews hs)] ∧
    (∃ top rest2, canonicalNews hs = top :: rest2 ∧ r.sent = [top]) := by
  subst hr
  have hhs : ¬ (hs.isEmpty = true) := by
    intro h
    rw [List.isEmpty_iff] at h
    subst h
    exact hne rfl
  obtain ⟨top, rest2, hcan⟩ := List.exists_cons_of_ne_nil hne
  have hseeded : s.seen_posts.isEmpty = true := by rw [hempty]; rfl
  rw [hcan]
  have hrun : fetch_news sendOk now (some hs) true s =
      ⟨⟨top :: rest2, (top :: rest2).map (·.id),
        save_seen_posts (top :: rest2), some now⟩,
       [save_seen_posts (top :: rest2)],
       [top], !(sendOk top)⟩ := by
    simp only [fetch_news]
    rw [if_neg hhs, hcan]
    simp [hseeded]
  rw [hrun]
  refine ⟨rfl, ?_, rfl, rfl, top, rest2, rfl, rfl⟩
  intro n hn
  exact List.mem_map_of_mem _ hn

/-- Witness for claim C2: bootstrapping an empty store over one heading seeds
the store with the canonical list. -/
theorem claim_C2_witness :
    (fetch_news (fun _ => true) 7 (some [hA]) true emptyState).state.seen_posts
      = canonicalNews [hA] :=
  (claim_C2 (fun _ => true) 7 emptyState [hA] _ rfl rfl (by decide)).1

/-- Claim C4 as stated is false on the code: when a send raises, the exception
leaves the loop and is caught on lines 120-121, so `save_seen_posts` on line
116 never runs.  In this run the fresh item was appended and marked seen in
memory, yet no write was performed and the file kept its old contents. -/
theorem claim_C4_counterexample :
    (fetch_news (fun _ => false) 5 (some [hA]) false emptyState).state.seen_posts ≠ [] ∧
    (fetch_news (fun _ => false) 5 (some [hA]) false emptyState).state.seen_ids ≠ [] ∧
    (fetch_news (fun _ => false) 5 (some [hA]) false emptyState).writes = [] ∧
    (fetch_news (fun _ => false) 5 (some [hA]) false emptyState).state.json_file = [] := by
  decide

/-- Claim C4, amended: when a send fails during a steady-state run, the failing
item keeps its place in the store sequence and its id stays in the seen set
(nothing is rolled back, and the failure is only logged: the model returns
normally with the `aborted` flag), but the exception ends the cycle, so the
store is not persisted during that run. -/
theorem claim_C4 (sendOk : NewsItem → Bool) (now : Nat) (s : FetchState) (hs : List Heading)
    (r : RunResult)
    (hr : r = fetch_news sendOk now (some hs) false s)
    (hab : r.aborted = true) :
    ∃ L n, sendOk n = false ∧
      r.state.seen_posts = s.seen_posts ++ L ++ [n] ∧
      n ∈ r.state.seen_posts ∧
      n.id ∈ r.state.seen_ids ∧
      r.writes = [] := by
  subst hr
  by_cases hhs : hs.isEmpty = true
  · simp only [fetch_news] at hab
    rw [if_pos hhs] at hab
    simp at hab
  · simp only [fetch_news] at hab ⊢
    rw [if_neg hhs, if_neg Bool.false_ne_true] at hab ⊢
    by_cases hok : (newsLoop sendOk s.seen_posts s.seen_ids [] false (canonicalNews hs)).ok = true
    · rw [if_pos hok] at hab
      by_cases hf : (newsLoop sendOk s.seen_posts s.seen_ids [] false (canonicalNews hs)).found = true
      · rw [if_pos hf] at hab
        simp at hab
      · rw [if_neg hf] at hab
        simp at hab
    · rw [if_neg hok] at hab ⊢
      have hok' : (newsLoop sendOk s.seen_posts s.seen_ids [] false (canonicalNews hs)).ok = false := by
        cases h0 : (newsLoop sendOk s.seen_posts s.seen_ids [] false (canonicalNews hs)).ok
        · rfl
        · exact absurd h0 hok
      obtain ⟨L, n, h1, h2, h3⟩ :=
        newsLoop_abort sendOk (canonicalNews hs) s.seen_posts s.seen_ids [] false hok'
      refine ⟨L, n, h1, by simpa using h2, ?_, by simpa using h3, rfl⟩
      simp only [RunResult.state]
      simp [h2]

/-- Witness for claim C4: a run whose only send fails keeps the item seen in
memory while writing nothing. -/
theorem claim_C4_witness :
    ∃ L n, (fun _ : NewsItem => false) n = false ∧
      (fetch_news (fun _ => false) 5 (some [hA]) false emptyState).state.seen_posts
        = emptyState.seen_posts ++ L ++ [n] ∧
      n ∈ (fetch_news (fun _ => false) 5 (some [hA]) false emptyState).state.seen_posts ∧
      n.id ∈ (fetch_news (fun _ => false) 5 (some [hA]) false emptyState).state.seen_ids ∧
      (fetch_news (fun _ => false) 5 (some [hA]) false emptyState).writes = [] :=
  claim_C4 (fun _ => false) 5 emptyState [hA] _ rfl (by decide)

/-- Claim C10: persisting never disturbs the in-memory sequence.  In any
steady-state run that wrote the file, the in-memory store is the old sequence
with the fresh items appended (append order, not the sorted file order), the
file got the recomputed sorted view of that sequence, and the last-news query
reports the most recently appended item together with the updated check
time. -/
theorem claim_C10 (sendOk : NewsItem → Bool) (now : Nat) (s : FetchState) (hs : List Heading)
    (r : RunResult)
    (hr : r = fetch_news sendOk now (some hs) false s)
    (hw : r.writes ≠ []) :
    ∃ L x, L ≠ [] ∧
      r.state.seen_posts = s.seen_posts ++ L ∧
      r.state.json_file = save_seen_posts (s.seen_posts ++ L) ∧
      r.writes = [save_seen_posts (s.seen_posts ++ L)] ∧
      L.getLast? = some x ∧
      lastnew_command r.state = some (x, some now) := by
  subst hr
  by_cases hhs : hs.isEmpty = true
  · simp only [fetch_news] at hw
    rw [if_pos hhs] at hw
    simp at hw
  · simp only [fetch_news] at hw ⊢
    rw [if_neg hhs, if_neg Bool.false_ne_true] at hw ⊢
    obtain ⟨L, hL1, hL2⟩ := newsLoop_grow sendOk (canonicalNews hs) s.seen_posts s.seen_ids [] false
    by_cases hok : (newsLoop sendOk s.seen_posts s.seen_ids [] false (canonicalNews hs)).ok = true
    · rw [if_pos hok] at hw ⊢
      by_cases hf : (newsLoop sendOk s.seen_posts s.seen_ids [] false (canonicalNews hs)).found = true
      · rw [if_pos hf] at hw ⊢
        have hLne : L ≠ [] := by
          intro h
          rw [h] at hL2
          rw [hL2] at hf
          simp at hf
        obtain ⟨x, hx⟩ := Option.isSome_iff_exists.1 (List.getLast?_isSome.2 hLne)
        refine ⟨L, x, hLne, by simpa using hL1, by simp [hL1], by simp [hL1], hx, ?_⟩
        simp [lastnew_command, hL1, List.getLast?_append, hx]
      · rw [if_neg hf] at hw
        simp at hw
    · rw [if_neg hok] at hw
      simp at hw

/-- Witness for claim C10: after a persisting run over one fresh item, the
query reports that item. -/
theorem claim_C10_witness :
    ∃ L x, L ≠ [] ∧
      (fetch_news (fun _ => true) 5 (some [hA]) false emptyState).state.seen_posts
        = emptyState.seen_posts ++ L ∧
      (fetch_news (fun _ => true) 5 (some [hA]) false emptyState).state.json_file
        = save_seen_posts (emptyState.seen_posts ++ L) ∧
      (fetch_news (fun _ => true) 5 (some [hA]) false emptyState).writes
        = [save_seen_posts (emptyState.seen_posts ++ L)] ∧
      L.getLast? = some x ∧
      lastnew_command (fetch_news (fun _ => true) 5 (some [hA]) false emptyState).state
        = some (x, some 5) :=
  claim_C10 (fun _ => true) 5 emptyState [hA] _ rfl (by decide)
